import Mathlib

set_option maxRecDepth 100000

/-!
Verification of the prisma-read-after-write-analyzer core.

Shallow embedding of the analyzer's data model and algorithms:
the operation classifier (`classifyOperation` and its helpers,
from `src/analyzer/operation-classifier.ts`), the issue detector
(`detectIssuesInFile` / `detectIssuesInFunction` from
`src/analyzer/issue-detector.ts`), the client instance detector
(`detectPrismaClients` from `src/analyzer/prisma-detector.ts`) and the
issue-list core of `analyze` (from `src/index.ts`).

Parsed TypeScript syntax (the ts-morph node interface used by the code:
node kind, `getText`, `getExpression`, parent chains, and pre-order
`getDescendantsOfKind` queries) is modelled by the inductive `TSNode`.
Ancestor chains, which ts-morph exposes through parent pointers, are made
explicit: descendant enumeration returns each node together with the list
of its ancestors, nearest first.
-/

/-- A parsed syntax node, covering the node kinds the analyzer inspects:
call expressions (carrying their start line/column as resolved by the
parser), property accesses, `new` expressions, variable declarations,
the four function-like construct kinds, identifiers, string literals,
await expressions, and a catch-all `other` for remaining node kinds. -/
inductive TSNode where
  | ident (name : String)
  | stringLit (s : String)
  | propAccess (obj : TSNode) (name : String)
  | callExpr (callee : TSNode) (args : List TSNode) (line column : Nat)
  | newExpr (callee : TSNode) (args : List TSNode)
  | varDecl (name : String) (initializer : Option TSNode) (line : Nat)
  | arrowFunction (body : List TSNode)
  | functionDecl (name : String) (body : List TSNode)
  | functionExpr (body : List TSNode)
  | methodDecl (name : String) (body : List TSNode)
  | awaitExpr (e : TSNode)
  | other (children : List TSNode)

mutual

/-- Canonical rendering of a node's source text (ts-morph `getText`).
The analyzer only ever inspects this text through substring checks. -/
def TSNode.text : TSNode → String
  | .ident name => name
  | .stringLit s => "'" ++ s ++ "'"
  | .propAccess obj name => obj.text ++ "." ++ name
  | .callExpr callee args _ _ => callee.text ++ "(" ++ TSNode.textList args ++ ")"
  | .newExpr callee args => "new " ++ callee.text ++ "(" ++ TSNode.textList args ++ ")"
  | .varDecl name initializer _ =>
    name ++ (match initializer with | none => "" | some e => " = " ++ e.text)
  | .arrowFunction body => "() => \x7b " ++ TSNode.textList body ++ " \x7d"
  | .functionDecl name body => "function " ++ name ++ "() \x7b " ++ TSNode.textList body ++ " \x7d"
  | .functionExpr body => "function () \x7b " ++ TSNode.textList body ++ " \x7d"
  | .methodDecl name body => name ++ "() \x7b " ++ TSNode.textList body ++ " \x7d"
  | .awaitExpr e => "await " ++ e.text
  | .other children => TSNode.textList children

/-- Rendering of a list of sibling nodes, comma-separated. -/
def TSNode.textList : List TSNode → String
  | [] => ""
  | [n] => n.text
  | n :: rest => n.text ++ ", " ++ TSNode.textList rest

end

/-- Does `l` start with `p`? (executable, on character lists) -/
def charsHaveStart (p l : List Char) : Bool :=
  match p, l with
  | [], _ => true
  | _ :: _, [] => false
  | a :: ps, b :: cs => a == b && charsHaveStart ps cs

/-- Does `p` occur contiguously somewhere inside `l`? (executable) -/
def charsContain (p l : List Char) : Bool :=
  match l with
  | [] => charsHaveStart p []
  | _ :: cs => charsHaveStart p l || charsContain p cs

/-- `String.includes` of JavaScript: does `s` contain `pat` as a substring? -/
def strContains (s pat : String) : Bool :=
  charsContain pat.data s.data

mutual

/-- All proper descendants of a node in document (pre-order) order, each
paired with its ancestor chain, nearest ancestor first.  The chain passed
in as `anc` is the ancestor chain of the node itself. -/
def TSNode.subWith : List TSNode → TSNode → List (TSNode × List TSNode)
  | _, .ident _ => []
  | _, .stringLit _ => []
  | anc, .propAccess obj name =>
    (obj, TSNode.propAccess obj name :: anc)
      :: TSNode.subWith (TSNode.propAccess obj name :: anc) obj
  | anc, .callExpr callee args line column =>
    ((callee, TSNode.callExpr callee args line column :: anc)
        :: TSNode.subWith (TSNode.callExpr callee args line column :: anc) callee)
      ++ TSNode.subListWith (TSNode.callExpr callee args line column :: anc) args
  | anc, .newExpr callee args =>
    ((callee, TSNode.newExpr callee args :: anc)
        :: TSNode.subWith (TSNode.newExpr callee args :: anc) callee)
      ++ TSNode.subListWith (TSNode.newExpr callee args :: anc) args
  | anc, .varDecl name initializer line =>
    match initializer with
    | none => []
    | some e =>
      (e, TSNode.varDecl name (some e) line :: anc)
        :: TSNode.subWith (TSNode.varDecl name (some e) line :: anc) e
  | anc, .arrowFunction body =>
    TSNode.subListWith (TSNode.arrowFunction body :: anc) body
  | anc, .functionDecl name body =>
    TSNode.subListWith (TSNode.functionDecl name body :: anc) body
  | anc, .functionExpr body =>
    TSNode.subListWith (TSNode.functionExpr body :: anc) body
  | anc, .methodDecl name body =>
    TSNode.subListWith (TSNode.methodDecl name body :: anc) body
  | anc, .awaitExpr e =>
    (e, TSNode.awaitExpr e :: anc) :: TSNode.subWith (TSNode.awaitExpr e :: anc) e
  | anc, .other children =>
    TSNode.subListWith (TSNode.other children :: anc) children

/-- Descendant enumeration over a list of sibling subtrees whose common
ancestor chain is `anc`: each sibling, followed by its own descendants. -/
def TSNode.subListWith : List TSNode → List TSNode → List (TSNode × List TSNode)
  | _, [] => []
  | anc, c :: cs =>
    ((c, anc) :: TSNode.subWith anc c) ++ TSNode.subListWith anc cs

end

/-- Kind test: call expression. -/
def TSNode.isCallExpr : TSNode → Bool
  | .callExpr _ _ _ _ => true
  | _ => false

/-- Kind test: function declaration. -/
def TSNode.isFunctionDecl : TSNode → Bool
  | .functionDecl _ _ => true
  | _ => false

/-- Kind test: arrow function. -/
def TSNode.isArrowFunction : TSNode → Bool
  | .arrowFunction _ => true
  | _ => false

/-- Kind test: function expression. -/
def TSNode.isFunctionExpr : TSNode → Bool
  | .functionExpr _ => true
  | _ => false

/-- Kind test: method declaration. -/
def TSNode.isMethodDecl : TSNode → Bool
  | .methodDecl _ _ => true
  | _ => false

/-- Operation kind: `'read' | 'write'` from `types.ts`. -/
inductive PrismaOperationType where
  | read
  | write
deriving DecidableEq, Repr

/-- `SourceLocation` from `types.ts`. -/
structure SourceLocation where
  file : String
  line : Nat
  column : Nat
deriving DecidableEq, Repr

/-- `PrismaOperation` from `types.ts`: one classified call expression. -/
structure PrismaOperation where
  type : PrismaOperationType
  method : String
  model : String
  location : SourceLocation
  usesReplica : Bool
  usesPrimary : Bool
  inTransaction : Bool
deriving DecidableEq, Repr

/-- Issue severity from `types.ts`. -/
inductive Severity where
  | error
  | warning
deriving DecidableEq, Repr

/-- `Issue` from `types.ts`: one reported write-then-read pairing. -/
structure Issue where
  type : String
  severity : Severity
  writeOperation : PrismaOperation
  readOperation : PrismaOperation
  callChain : List String
  message : String
deriving DecidableEq, Repr

/-- `WRITE_METHODS` from the operation classifier. -/
def WRITE_METHODS : List String :=
  ["create", "createMany", "update", "updateMany", "upsert", "delete", "deleteMany"]

/-- `READ_METHODS` from the operation classifier. -/
def READ_METHODS : List String :=
  ["findMany", "findUnique", "findFirst", "findFirstOrThrow", "findUniqueOrThrow",
   "count", "aggregate", "groupBy"]

/-- `extractModelName` from the operation classifier: given the callee
property access, its inner expression must itself be a property access and
its name, unless `$primary`/`$replica`, is the model. -/
def extractModelName (propertyAccess : TSNode) : Option String :=
  match propertyAccess with
  | .propAccess expression _ =>
    match expression with
    | .propAccess _ name =>
      if name == "$primary" || name == "$replica" then none else some name
    | _ => none
  | _ => none

/-- The `while` loop of `checkReplicaUsage`: starting from the callee's
inner expression, inspect each node's text for the literal substrings
`$primary()` / `$replica()` (in that order), stopping at the first hit;
otherwise unwrap property accesses and call expressions, and stop when the
current node is neither. -/
def replicaLoop (current : TSNode) : Bool × Bool :=
  if strContains current.text "$primary()" then (true, false)
  else if strContains current.text "$replica()" then (false, true)
  else
    match current with
    | .propAccess obj _ => replicaLoop obj
    | .callExpr callee _ _ _ => replicaLoop callee
    | _ => (false, false)

/-- `checkReplicaUsage` from the operation classifier: run `replicaLoop`
from the callee's inner expression; result is `(usesPrimary, usesReplica)`. -/
def checkReplicaUsage (propertyAccess : TSNode) : Bool × Bool :=
  match propertyAccess with
  | .propAccess expression _ => replicaLoop expression
  | _ => (false, false)

/-- The per-ancestor test of `isInTransaction`: is this node a call
expression whose callee is a property access named `$transaction`? -/
def isTransactionCall (node : TSNode) : Bool :=
  match node with
  | .callExpr expr _ _ _ =>
    match expr with
    | .propAccess _ name => name == "$transaction"
    | _ => false
  | _ => false

/-- `isInTransaction` from the operation classifier: walk the full
ancestor chain of the call expression; true when any ancestor is a
`$transaction` call. -/
def isInTransaction (ancestors : List TSNode) : Bool :=
  ancestors.any isTransactionCall

/-- `classifyOperation` from the operation classifier.  The node must be a
call expression whose callee is a property access; its final name is
looked up in the write set then the read set; the model is extracted; the
routing flags and the transaction flag are computed.  Any failed step
yields `none`.  `ancestors` is the node's ancestor chain, nearest first. -/
def classifyOperation (file : String) (node : TSNode) (ancestors : List TSNode) :
    Option PrismaOperation :=
  match node with
  | .callExpr expression _args line column =>
    match expression with
    | .propAccess inner methodName =>
      let type? : Option PrismaOperationType :=
        if WRITE_METHODS.contains methodName then some .write
        else if READ_METHODS.contains methodName then some .read
        else none
      match type? with
      | none => none
      | some ty =>
        match extractModelName (.propAccess inner methodName) with
        | none => none
        | some model =>
          let usage := checkReplicaUsage (.propAccess inner methodName)
          some {
            type := ty
            method := methodName
            model := model
            location := { file := file, line := line, column := column }
            usesReplica := usage.2
            usesPrimary := usage.1
            inTransaction := isInTransaction ancestors
          }
    | _ => none
  | _ => none

/-- The write-side filter of the pairing loop in `detectIssuesInFunction`:
a write operation not inside a transaction. -/
def writeMatches (op : PrismaOperation) : Bool :=
  op.type == .write && !op.inTransaction

/-- The read-side filter of the pairing loop in `detectIssuesInFunction`:
a read operation not inside a transaction and not using `$primary()`. -/
def readMatches (op : PrismaOperation) : Bool :=
  op.type == .read && !op.inTransaction && !op.usesPrimary

/-- The `Issue` record built by `detectIssuesInFunction` for one
write/read pair. -/
def mkIssue (writeOp readOp : PrismaOperation) : Issue :=
  { type := "read-after-write"
    severity := .error
    writeOperation := writeOp
    readOperation := readOp
    callChain := [writeOp.location.file ++ ":" ++ toString writeOp.location.line,
                  readOp.location.file ++ ":" ++ toString readOp.location.line]
    message := "Read operation on " ++ readOp.model ++ "." ++ readOp.method
      ++ "() may use replica immediately after write operation on "
      ++ writeOp.model ++ "." ++ writeOp.method
      ++ "(), potentially reading stale data. Consider using $primary() for the read operation." }

/-- The nested pairing loops of `detectIssuesInFunction`: for each index
`i` holding an unguarded write, pair it with every later index `j`
holding an unguarded, non-primary read, in order. -/
def pairIssues : List PrismaOperation → List Issue
  | [] => []
  | writeOp :: rest =>
    (if writeMatches writeOp then (rest.filter readMatches).map (mkIssue writeOp) else [])
      ++ pairIssues rest

/-- The call expressions of a function-like construct's descendant tree in
document order (`func.getDescendantsOfKind(SyntaxKind.CallExpression)`),
each with its full ancestor chain. -/
def functionCalls (anc : List TSNode) (func : TSNode) : List (TSNode × List TSNode) :=
  (TSNode.subWith anc func).filter fun p => p.1.isCallExpr

/-- The construct's operation sequence: classify every call expression,
keep the successes in traversal order. -/
def functionOperations (file : String) (anc : List TSNode) (func : TSNode) :
    List PrismaOperation :=
  (functionCalls anc func).filterMap fun p => classifyOperation file p.1 p.2

/-- `detectIssuesInFunction` from the issue detector: collect and classify
the construct's call expressions, then run the pairing loops. -/
def detectIssuesInFunction (file : String) (anc : List TSNode) (func : TSNode) : List Issue :=
  pairIssues (functionOperations file anc func)

/-- `PrismaClientInstance` from the client instance detector. -/
structure PrismaClientInstance where
  name : String
  file : String
  line : Nat
  hasReadReplicaExtension : Bool
deriving DecidableEq, Repr

/-- The function-like constructs of a file, as enumerated by
`detectIssuesInFile`: the four `getDescendantsOfKind` queries
(function declarations, arrow functions, function expressions, method
declarations), concatenated in that order. -/
def fileFunctions (root : TSNode) : List (TSNode × List TSNode) :=
  let ds := TSNode.subWith [] root
  (ds.filter fun p => p.1.isFunctionDecl) ++ (ds.filter fun p => p.1.isArrowFunction)
    ++ (ds.filter fun p => p.1.isFunctionExpr) ++ (ds.filter fun p => p.1.isMethodDecl)

/-- `detectIssuesInFile` from the issue detector: analyze each enumerated
construct separately and concatenate the issues.  The
`_prismaInstances` argument is accepted and ignored, exactly as in the
source. -/
def detectIssuesInFile (file : String) (root : TSNode)
    (_prismaInstances : List PrismaClientInstance) : List Issue :=
  (fileFunctions root).flatMap fun p => detectIssuesInFunction file p.2 p.1

/-- A parsed source file: its path plus its syntax tree root. -/
structure SourceFile where
  path : String
  root : TSNode

/-- `isPrismaClientDeclaration` from the client instance detector: the
declaration's initializer is either a `new PrismaClient()` construction,
or any initializer whose text contains `PrismaClient` or `.$extends`. -/
def isPrismaClientDeclaration (initializer : Option TSNode) : Bool :=
  match initializer with
  | none => false
  | some (.newExpr callee _) => callee.text == "PrismaClient"
  | some init => strContains init.text "PrismaClient" || strContains init.text ".$extends"

/-- `checkReadReplicaExtension` from the client instance detector: the
initializer's text contains `readReplicas` or `read-replicas`. -/
def checkReadReplicaExtension (initializer : Option TSNode) : Bool :=
  match initializer with
  | none => false
  | some init => strContains init.text "readReplicas" || strContains init.text "read-replicas"

/-- `detectPrismaClients` from the client instance detector: scan every
variable declaration of every file and record the qualifying ones. -/
def detectPrismaClients (files : List SourceFile) : List PrismaClientInstance :=
  files.flatMap fun f =>
    (TSNode.subWith [] f.root).filterMap fun p =>
      match p.1 with
      | .varDecl name initializer line =>
        if isPrismaClientDeclaration initializer then
          some { name := name, file := f.path, line := line,
                 hasReadReplicaExtension := checkReadReplicaExtension initializer }
        else none
      | _ => none

/-- The issue-list core of `analyze` from `src/index.ts`: detect client
instances over the whole file set; when none are found, return the empty
issue list immediately; otherwise run `detectIssuesInFile` on every file
and concatenate. -/
def analyzeIssues (files : List SourceFile) : List Issue :=
  let prismaInstances := detectPrismaClients files
  if prismaInstances.isEmpty then []
  else files.flatMap fun f => detectIssuesInFile f.path f.root prismaInstances

/-! ## Helper lemmas about the pairing loop -/

/-- Membership characterization of the pairing loop: an issue is emitted
exactly for the ordered pairs (write before read, both passing their
filters) of the operation sequence. -/
theorem mem_pairIssues_iff {iss : Issue} : ∀ {ops : List PrismaOperation},
    iss ∈ pairIssues ops ↔
      ∃ w r, writeMatches w = true ∧ readMatches r = true ∧ iss = mkIssue w r ∧
        List.Sublist [w, r] ops := by
  intro ops
  induction ops with
  | nil =>
    simp only [pairIssues, List.not_mem_nil, false_iff]
    rintro ⟨w, r, -, -, -, hsub⟩
    cases hsub
  | cons op rest ih =>
    simp only [pairIssues, List.mem_append]
    constructor
    · intro h
      rcases h with h | h
      · by_cases hop : writeMatches op = true
        · rw [if_pos hop] at h
          obtain ⟨r, hrmem, hiss⟩ := List.mem_map.mp h
          obtain ⟨hrrest, hrmatch⟩ := List.mem_filter.mp hrmem
          exact ⟨op, r, hop, hrmatch, hiss.symm,
            List.Sublist.cons₂ op (List.singleton_sublist.mpr hrrest)⟩
        · rw [if_neg hop] at h
          cases h
      · obtain ⟨w, r, h1, h2, h3, h4⟩ := ih.mp h
        exact ⟨w, r, h1, h2, h3, h4.cons op⟩
    · rintro ⟨w, r, h1, h2, h3, h4⟩
      cases h4 with
      | cons _ h' =>
        exact Or.inr (ih.mpr ⟨w, r, h1, h2, h3, h'⟩)
      | cons₂ _ h' =>
        refine Or.inl ?_
        rw [if_pos h1]
        exact h3 ▸ List.mem_map_of_mem (mkIssue op)
          (List.mem_filter.mpr ⟨List.singleton_sublist.mp h', h2⟩)

/-- A sequence with no write survivors produces no issues. -/
theorem pairIssues_eq_nil_of_no_writes : ∀ {ops : List PrismaOperation},
    (∀ x ∈ ops, writeMatches x = false) → pairIssues ops = [] := by
  intro ops h
  induction ops with
  | nil => rfl
  | cons op rest ih =>
    simp only [pairIssues]
    rw [if_neg (by simp [h op (List.mem_cons_self op rest)]), List.nil_append]
    exact ih fun x hx => h x (List.mem_cons_of_mem op hx)

/-- Counting lemma: a sequence of matching writes followed by matching
reads produces `writes × reads` issues. -/
theorem pairIssues_length_ws_rs : ∀ (ws rs : List PrismaOperation),
    (∀ w ∈ ws, writeMatches w = true ∧ readMatches w = false) →
    (∀ r ∈ rs, readMatches r = true ∧ writeMatches r = false) →
    (pairIssues (ws ++ rs)).length = ws.length * rs.length := by
  intro ws rs hw hr
  induction ws with
  | nil =>
    simp only [List.nil_append, List.length_nil, Nat.zero_mul]
    rw [pairIssues_eq_nil_of_no_writes fun x hx => (hr x hx).2]
    rfl
  | cons w ws ih =>
    simp only [List.cons_append, pairIssues]
    rw [if_pos (hw w (List.mem_cons_self w ws)).1]
    simp only [List.append_eq]
    rw [List.filter_append]
    rw [List.filter_eq_nil_iff.mpr
      (fun x hx => by simp [(hw x (List.mem_cons_of_mem w hx)).2])]
    rw [List.filter_eq_self.mpr (fun x hx => (hr x hx).1)]
    simp only [List.nil_append, List.length_append, List.length_map, List.length_cons]
    rw [ih fun x hx => hw x (List.mem_cons_of_mem w hx)]
    ring

/-! ## Concrete fixtures used by witnesses and end-to-end theorems -/

/-- `prisma.user`, the entity access used by the concrete fixtures. -/
def prismaUser : TSNode := .propAccess (.ident "prisma") "user"

/-- A plain `prisma.user.<method>(...)` call starting at the given line. -/
def userCall (method : String) (line : Nat) : TSNode :=
  .callExpr (.propAccess prismaUser method) [] line 3

/-- `prisma.$replica().user.<method>(...)` starting at the given line. -/
def replicaUserCall (method : String) (line : Nat) : TSNode :=
  .callExpr
    (.propAccess
      (.propAccess (.callExpr (.propAccess (.ident "prisma") "$replica") [] line 9) "user")
      method)
    [] line 3

/-- The operation record produced for a plain `prisma.user.<method>()`
call at the given location. -/
def userOp (ty : PrismaOperationType) (method file : String) (line : Nat) : PrismaOperation :=
  { type := ty
    method := method
    model := "user"
    location := { file := file, line := line, column := 3 }
    usesReplica := false
    usesPrimary := false
    inTransaction := false }

/-- Scenario D construct: `create`, `findFirst`, `update`, `findUnique`
in sequence, none guarded. -/
def funcScenarioD : TSNode :=
  .arrowFunction [.awaitExpr (userCall "create" 2), .awaitExpr (userCall "findFirst" 3),
    .awaitExpr (userCall "update" 4), .awaitExpr (userCall "findUnique" 5)]

/-- Claim C9: for a construct whose operation sequence is exactly
`create`, `findFirst`, `update`, `findUnique` in traversal order, all
unguarded, the detector emits exactly the three issues create→findFirst,
create→findUnique and update→findUnique, and none pairing update with
findFirst. -/
theorem scenario_d_exactly_three_issues :
    detectIssuesInFunction "d.ts" [] funcScenarioD =
      [mkIssue (userOp .write "create" "d.ts" 2) (userOp .read "findFirst" "d.ts" 3),
       mkIssue (userOp .write "create" "d.ts" 2) (userOp .read "findUnique" "d.ts" 5),
       mkIssue (userOp .write "update" "d.ts" 4) (userOp .read "findUnique" "d.ts" 5)] := by
  decide

/-- Claim C1: a construct whose operation sequence is exactly `w`
unguarded writes followed by `r` unguarded, non-primary reads produces
exactly `w × r` issues (unrestricted pairwise cross-product, not a
nearest-pair count). -/
theorem pairing_cross_product_count (file : String) (anc : List TSNode) (func : TSNode)
    (ws rs : List PrismaOperation)
    (hops : functionOperations file anc func = ws ++ rs)
    (hw : ∀ w ∈ ws, w.type = PrismaOperationType.write ∧ w.inTransaction = false)
    (hr : ∀ r ∈ rs, r.type = PrismaOperationType.read ∧ r.inTransaction = false ∧
      r.usesPrimary = false) :
    (detectIssuesInFunction file anc func).length = ws.length * rs.length := by
  unfold detectIssuesInFunction
  rw [hops]
  apply pairIssues_length_ws_rs
  · intro w hwmem
    obtain ⟨h1, h2⟩ := hw w hwmem
    exact ⟨by simp [writeMatches, h1, h2], by simp [readMatches, h1]⟩
  · intro r hrmem
    obtain ⟨h1, h2, h3⟩ := hr r hrmem
    exact ⟨by simp [readMatches, h1, h2, h3], by simp [writeMatches, h1]⟩

/-- A construct with exactly 2 unguarded writes followed by 3 unguarded
reads, for the C1 witness. -/
def funcTwoWritesThreeReads : TSNode :=
  .arrowFunction [.awaitExpr (userCall "create" 1), .awaitExpr (userCall "createMany" 2),
    .awaitExpr (userCall "findMany" 3), .awaitExpr (userCall "findFirst" 4),
    .awaitExpr (userCall "count" 5)]

/-- Witness for C1: the 2-writes-then-3-reads construct yields 6 issues. -/
theorem pairing_cross_product_count_witness :
    (detectIssuesInFunction "w.ts" [] funcTwoWritesThreeReads).length = 6 :=
  pairing_cross_product_count "w.ts" [] funcTwoWritesThreeReads
    [userOp .write "create" "w.ts" 1, userOp .write "createMany" "w.ts" 2]
    [userOp .read "findMany" "w.ts" 3, userOp .read "findFirst" "w.ts" 4,
     userOp .read "count" "w.ts" 5]
    (by decide) (by decide) (by decide)

/-- Claim C2: every issue produced by the issue detector has a write
operation with `inTransaction = false` and a read operation with
`inTransaction = false` and `usesPrimary = false`. -/
theorem issue_flag_invariant (file : String) (root : TSNode)
    (insts : List PrismaClientInstance) (iss : Issue)
    (h : iss ∈ detectIssuesInFile file root insts) :
    iss.writeOperation.inTransaction = false ∧
      iss.readOperation.inTransaction = false ∧
      iss.readOperation.usesPrimary = false := by
  unfold detectIssuesInFile at h
  obtain ⟨p, hp, hmem⟩ := List.mem_flatMap.mp h
  obtain ⟨w, r, hw, hr, rfl, hsub⟩ := mem_pairIssues_iff.mp hmem
  simp only [writeMatches, readMatches, Bool.and_eq_true, beq_iff_eq,
    Bool.not_eq_true'] at hw hr
  exact ⟨hw.2, hr.1.2, hr.2⟩

/-- The one-write-one-read construct used by several witnesses. -/
def funcWriteThenRead : TSNode :=
  .arrowFunction [.awaitExpr (userCall "create" 2), .awaitExpr (userCall "findMany" 3)]

/-- Witness for C2: the flag invariant at the concrete issue produced by
the write-then-read file. -/
theorem issue_flag_invariant_witness :
    (mkIssue (userOp .write "create" "a.ts" 2)
        (userOp .read "findMany" "a.ts" 3)).writeOperation.inTransaction = false ∧
      (mkIssue (userOp .write "create" "a.ts" 2)
        (userOp .read "findMany" "a.ts" 3)).readOperation.inTransaction = false ∧
      (mkIssue (userOp .write "create" "a.ts" 2)
        (userOp .read "findMany" "a.ts" 3)).readOperation.usesPrimary = false :=
  issue_flag_invariant "a.ts" (.other [funcWriteThenRead]) [] _ (by decide)

/-- Claim C8: the pairing never filters on `usesReplica`: a read flagged
`usesReplica = true` (unguarded, non-primary) occurring after an
unguarded write in the construct's operation sequence is still paired
into an issue. -/
theorem replica_read_still_paired (file : String) (anc : List TSNode) (func : TSNode)
    (w r : PrismaOperation)
    (hsub : List.Sublist [w, r] (functionOperations file anc func))
    (hw1 : w.type = PrismaOperationType.write) (hw2 : w.inTransaction = false)
    (hr1 : r.type = PrismaOperationType.read) (hr2 : r.inTransaction = false)
    (hr3 : r.usesPrimary = false) (_hr4 : r.usesReplica = true) :
    mkIssue w r ∈ detectIssuesInFunction file anc func := by
  unfold detectIssuesInFunction
  exact mem_pairIssues_iff.mpr
    ⟨w, r, by simp [writeMatches, hw1, hw2], by simp [readMatches, hr1, hr2, hr3], rfl, hsub⟩

/-- Construct with a write followed by an explicit `$replica()` read. -/
def funcWriteThenReplicaRead : TSNode :=
  .arrowFunction [.awaitExpr (userCall "create" 2), .awaitExpr (replicaUserCall "findMany" 3)]

/-- The operation record of the `$replica()` read of the witness file. -/
def replicaReadOp : PrismaOperation :=
  { type := .read
    method := "findMany"
    model := "user"
    location := { file := "r.ts", line := 3, column := 3 }
    usesReplica := true
    usesPrimary := false
    inTransaction := false }

/-- Witness for C8: the `$replica()` read is paired with the preceding
write. -/
theorem replica_read_still_paired_witness :
    mkIssue (userOp .write "create" "r.ts" 2) replicaReadOp ∈
      detectIssuesInFunction "r.ts" [] funcWriteThenReplicaRead :=
  replica_read_still_paired "r.ts" [] funcWriteThenReplicaRead
    (userOp .write "create" "r.ts" 2) replicaReadOp
    (by decide) (by decide) (by decide) (by decide) (by decide) (by decide) (by decide)

/-! ## Classifier lemmas -/

/-- The routing walk can never set both flags: it stops at the first hit,
and the `$primary()` test is made first. -/
theorem replicaLoop_ne_both (n : TSNode) : replicaLoop n ≠ (true, true) := by
  induction n using replicaLoop.induct with
  | case1 n h => rw [replicaLoop.eq_def, if_pos h]; simp
  | case2 n h1 h2 => rw [replicaLoop.eq_def, if_neg h1, if_pos h2]; simp
  | case3 n nm h1 h2 ih => rw [replicaLoop.eq_def, if_neg h1, if_neg h2]; exact ih
  | case4 n args ln col h1 h2 ih => rw [replicaLoop.eq_def, if_neg h1, if_neg h2]; exact ih
  | case5 n h1 h2 h3 h4 =>
    rw [replicaLoop.eq_def, if_neg h1, if_neg h2]
    cases n <;> first
      | exact absurd rfl (h3 _ _)
      | exact absurd rfl (h4 _ _ _ _)
      | simp

/-- Shape of every successful classification: the node was a call on a
property access, the transaction flag is exactly the ancestor-walk
result, and the routing flags are exactly the routing-walk results on the
callee's inner expression. -/
theorem classify_some_shape (file : String) (node : TSNode) (anc : List TSNode)
    (op : PrismaOperation) (h : classifyOperation file node anc = some op) :
    op.inTransaction = isInTransaction anc ∧
      ∃ inner nm args ln col,
        node = TSNode.callExpr (TSNode.propAccess inner nm) args ln col ∧
          op.usesPrimary = (replicaLoop inner).1 ∧ op.usesReplica = (replicaLoop inner).2 := by
  cases node with
  | callExpr callee args ln col =>
    cases callee with
    | propAccess inner nm =>
      simp only [classifyOperation] at h
      split at h
      · exact absurd h (by simp)
      · split at h
        · exact absurd h (by simp)
        · injection h with h'
          subst h'
          exact ⟨rfl, inner, nm, args, ln, col, rfl, rfl, rfl⟩
    | _ => simp [classifyOperation] at h
  | _ => simp [classifyOperation] at h

/-- Claim C10: a classified operation never has both routing flags set:
the walk stops at the first node whose text contains either substring,
and the `$primary()` check takes precedence within a node. -/
theorem routing_flags_mutually_exclusive (file : String) (node : TSNode)
    (anc : List TSNode) (op : PrismaOperation)
    (h : classifyOperation file node anc = some op) :
    op.usesPrimary = false ∨ op.usesReplica = false := by
  obtain ⟨-, inner, nm, args, ln, col, -, hp, hr⟩ := classify_some_shape file node anc op h
  have hne := replicaLoop_ne_both inner
  rcases hb : replicaLoop inner with ⟨a, b⟩
  rw [hb] at hp hr hne
  cases a with
  | false => exact Or.inl (by simpa using hp)
  | true =>
    cases b with
    | false => exact Or.inr (by simpa using hr)
    | true => exact absurd rfl hne

/-- Witness for C10 at a concrete `$replica()` read. -/
theorem routing_flags_mutually_exclusive_witness :
    replicaReadOp.usesPrimary = false ∨ replicaReadOp.usesReplica = false :=
  routing_flags_mutually_exclusive "r.ts" (replicaUserCall "findMany" 3)
    [.arrowFunction [.awaitExpr (replicaUserCall "findMany" 3)]] replicaReadOp (by decide)

/-- Claim C7: any call expression with a `$transaction` call anywhere in
its ancestor chain — at any depth, since the walk is unbounded and stops
only at the root — classifies with `inTransaction = true`. -/
theorem transaction_ancestor_forces_flag (file : String) (node : TSNode)
    (anc : List TSNode) (op : PrismaOperation)
    (ht : ∃ a ∈ anc, isTransactionCall a = true)
    (h : classifyOperation file node anc = some op) :
    op.inTransaction = true := by
  obtain ⟨hin, -⟩ := classify_some_shape file node anc op h
  rw [hin, isInTransaction]
  exact List.any_eq_true.mpr (by simpa using ht)

/-- A `prisma.$transaction(...)` call wrapping the write-then-read arrow
function, for the C7 witness. -/
def txWrapperCall : TSNode :=
  .callExpr (.propAccess (.ident "prisma") "$transaction") [funcWriteThenRead] 1 3

/-- Witness for C7: a `create` call three ancestors below a
`$transaction` call classifies with `inTransaction = true`. -/
theorem transaction_ancestor_forces_flag_witness :
    ({ type := .write, method := "create", model := "user",
       location := { file := "t.ts", line := 2, column := 3 },
       usesReplica := false, usesPrimary := false,
       inTransaction := true } : PrismaOperation).inTransaction = true :=
  transaction_ancestor_forces_flag "t.ts" (userCall "create" 2)
    [.awaitExpr (userCall "create" 2), funcWriteThenRead, txWrapperCall]
    _ (by decide) (by decide)

/-- Model extraction fails when the callee's inner expression is not a
property access. -/
theorem extract_none_of_not_prop (inner : TSNode) (nm : String)
    (h : ∀ o2 n2, inner ≠ TSNode.propAccess o2 n2) :
    extractModelName (.propAccess inner nm) = none := by
  cases inner <;> first
    | exact absurd rfl (h _ _)
    | rfl

/-- A failed model extraction makes the whole classification fail,
whatever the method lookup produced. -/
theorem classify_none_of_extract_none (file : String) (inner : TSNode) (nm : String)
    (args : List TSNode) (line column : Nat) (anc : List TSNode)
    (hx : extractModelName (.propAccess inner nm) = none) :
    classifyOperation file (.callExpr (.propAccess inner nm) args line column) anc = none := by
  simp only [classifyOperation, hx]
  split <;> rfl

/-- Claim C5: classification yields `absent` exactly when the callee is
not a property access, or the method name is outside both fixed method
sets, or the callee's inner expression is not a property access, or that
inner property name is exactly `$primary` or `$replica`; in every other
case an operation is returned. -/
theorem classify_absent_iff (file : String) (callee : TSNode) (args : List TSNode)
    (line column : Nat) (anc : List TSNode) :
    classifyOperation file (.callExpr callee args line column) anc = none ↔
      (∀ obj nm, callee ≠ TSNode.propAccess obj nm) ∨
      (∃ obj nm, callee = TSNode.propAccess obj nm ∧
        WRITE_METHODS.contains nm = false ∧ READ_METHODS.contains nm = false) ∨
      (∃ obj nm, callee = TSNode.propAccess obj nm ∧
        ∀ o2 n2, obj ≠ TSNode.propAccess o2 n2) ∨
      (∃ o2 n2 nm, callee = TSNode.propAccess (TSNode.propAccess o2 n2) nm ∧
        (n2 = "$primary" ∨ n2 = "$replica")) := by
  cases callee with
  | propAccess inner nm =>
    by_cases hinner : ∀ o2 n2, inner ≠ TSNode.propAccess o2 n2
    · rw [classify_none_of_extract_none file inner nm args line column anc
        (extract_none_of_not_prop inner nm hinner)]
      simp only [true_iff]
      exact Or.inr (Or.inr (Or.inl ⟨inner, nm, rfl, hinner⟩))
    · push_neg at hinner
      obtain ⟨o2, n2, rfl⟩ := hinner
      by_cases hp : n2 = "$primary"
      · subst hp
        rw [classify_none_of_extract_none file _ nm args line column anc (by rfl)]
        simp only [true_iff]
        exact Or.inr (Or.inr (Or.inr ⟨o2, "$primary", nm, rfl, Or.inl rfl⟩))
      · by_cases hr : n2 = "$replica"
        · subst hr
          rw [classify_none_of_extract_none file _ nm args line column anc (by rfl)]
          simp only [true_iff]
          exact Or.inr (Or.inr (Or.inr ⟨o2, "$replica", nm, rfl, Or.inr rfl⟩))
        · have hx : extractModelName (.propAccess (.propAccess o2 n2) nm) = some n2 := by
            simp [extractModelName, hp, hr]
          by_cases hW : WRITE_METHODS.contains nm = true
          · simp only [classifyOperation, hx, hW, if_true]
            constructor
            · intro h; exact absurd h (by simp)
            · rintro (h | ⟨obj, nm', heq, h1, h2⟩ | ⟨obj, nm', heq, h⟩ | ⟨a, b, nm', heq, h⟩)
              · exact absurd rfl (h _ _)
              · injection heq with e1 e2
                subst e1; subst e2
                rw [hW] at h1
                exact absurd h1 (by simp)
              · injection heq with e1 e2
                subst e1
                exact absurd rfl (h o2 n2)
              · injection heq with e1 e2
                injection e1 with e3 e4
                subst e4
                rcases h with h | h <;> [exact absurd h hp; exact absurd h hr]
          · by_cases hR : READ_METHODS.contains nm = true
            · simp only [classifyOperation, hx, hW, hR, if_false, if_true, Bool.false_eq_true]
              constructor
              · intro h; exact absurd h (by simp)
              · rintro (h | ⟨obj, nm', heq, h1, h2⟩ | ⟨obj, nm', heq, h⟩ | ⟨a, b, nm', heq, h⟩)
                · exact absurd rfl (h _ _)
                · injection heq with e1 e2
                  subst e2
                  rw [hR] at h2
                  exact absurd h2 (by simp)
                · injection heq with e1 e2
                  subst e1
                  exact absurd rfl (h o2 n2)
                · injection heq with e1 e2
                  injection e1 with e3 e4
                  subst e4
                  rcases h with h | h <;> [exact absurd h hp; exact absurd h hr]
            · simp only [classifyOperation, hW, hR, Bool.false_eq_true, if_false]
              simp only [true_iff]
              exact Or.inr (Or.inl ⟨.propAccess o2 n2, nm, rfl,
                by simpa using hW, by simpa using hR⟩)
  | ident s =>
    simp only [classifyOperation, true_iff]
    exact Or.inl fun obj nm h => TSNode.noConfusion h
  | stringLit s =>
    simp only [classifyOperation, true_iff]
    exact Or.inl fun obj nm h => TSNode.noConfusion h
  | callExpr a b c d =>
    simp only [classifyOperation, true_iff]
    exact Or.inl fun obj nm h => TSNode.noConfusion h
  | newExpr a b =>
    simp only [classifyOperation, true_iff]
    exact Or.inl fun obj nm h => TSNode.noConfusion h
  | varDecl a b c =>
    simp only [classifyOperation, true_iff]
    exact Or.inl fun obj nm h => TSNode.noConfusion h
  | arrowFunction a =>
    simp only [classifyOperation, true_iff]
    exact Or.inl fun obj nm h => TSNode.noConfusion h
  | functionDecl a b =>
    simp only [classifyOperation, true_iff]
    exact Or.inl fun obj nm h => TSNode.noConfusion h
  | functionExpr a =>
    simp only [classifyOperation, true_iff]
    exact Or.inl fun obj nm h => TSNode.noConfusion h
  | methodDecl a b =>
    simp only [classifyOperation, true_iff]
    exact Or.inl fun obj nm h => TSNode.noConfusion h
  | awaitExpr a =>
    simp only [classifyOperation, true_iff]
    exact Or.inl fun obj nm h => TSNode.noConfusion h
  | other a =>
    simp only [classifyOperation, true_iff]
    exact Or.inl fun obj nm h => TSNode.noConfusion h

/-! ## String lemmas for the routing-substring checks -/

/-- Appending strings concatenates their character data. -/
theorem str_data_append (s t : String) : (s ++ t).data = s.data ++ t.data := by
  cases s; cases t; rfl

/-- A pattern starts every list it is a prefix of. -/
theorem charsHaveStart_append (p t : List Char) : charsHaveStart p (p ++ t) = true := by
  induction p with
  | nil => rfl
  | cons a ps ih => simp [charsHaveStart, ih]

/-- A pattern occurring at the start occurs in the list. -/
theorem charsContain_of_start {p l : List Char} (h : charsHaveStart p l = true) :
    charsContain p l = true := by
  cases l with
  | nil => exact h
  | cons c cs => simp [charsContain, h]

/-- Containment is stable under extending the list on the left. -/
theorem charsContain_cons {p l : List Char} (c : Char) (h : charsContain p l = true) :
    charsContain p (c :: l) = true := by
  simp [charsContain, h]

/-- A pattern sandwiched between two lists is contained. -/
theorem charsContain_append (p a b : List Char) : charsContain p (a ++ (p ++ b)) = true := by
  induction a with
  | nil => exact charsContain_of_start (charsHaveStart_append p b)
  | cons c a ih => exact charsContain_cons c ih

/-- Sufficient condition for `strContains`: exhibit the split. -/
theorem strContains_of_data (s pat : String) (a b : List Char)
    (h : s.data = a ++ (pat.data ++ b)) : strContains s pat = true := by
  rw [strContains, h]
  exact charsContain_append _ _ _

/-- A pattern sandwiched between two strings is contained. -/
theorem strContains_middle (x pat y : String) : strContains (x ++ (pat ++ y)) pat = true := by
  apply strContains_of_data _ _ x.data y.data
  simp [str_data_append]

/-- Merging the text pieces produced by rendering a `$primary()` call. -/
theorem dollar_primary_merge (s : String) :
    "$primary" ++ ("(" ++ ("" ++ (")" ++ s))) = "$primary()" ++ s := by
  rw [← String.append_assoc, ← String.append_assoc, ← String.append_assoc]
  rfl

/-- The rendered text of `client.$primary().entity`, with the
`$primary()` substring made explicit. -/
theorem primary_entity_text (client : TSNode) (entity : String) (pl pc : Nat) :
    (TSNode.propAccess
      (TSNode.callExpr (TSNode.propAccess client "$primary") [] pl pc) entity).text
      = (client.text ++ ".") ++ ("$primary()" ++ ("." ++ entity)) := by
  simp only [TSNode.text, TSNode.textList, String.append_assoc]
  rw [dollar_primary_merge]

/-- Claim C6: every call of the shape `client.$primary().entity.method(...)`
with a method in the read or write set (and a genuine entity segment)
classifies to an operation with that entity, `usesPrimary = true` and
`usesReplica = false`: the `$primary()` segment does not block entity
extraction because the entity segment directly wraps the method call. -/
theorem primary_then_entity_classifies (file : String) (client : TSNode)
    (entity method : String) (args : List TSNode) (pl pc line column : Nat)
    (anc : List TSNode)
    (hmethod : WRITE_METHODS.contains method = true ∨ READ_METHODS.contains method = true)
    (hp : entity ≠ "$primary") (hr : entity ≠ "$replica") :
    ∃ op, classifyOperation file
        (.callExpr
          (.propAccess
            (.propAccess (.callExpr (.propAccess client "$primary") [] pl pc) entity)
            method)
          args line column) anc = some op ∧
      op.model = entity ∧ op.usesPrimary = true ∧ op.usesReplica = false := by
  have hx : extractModelName
      (.propAccess
        (.propAccess (.callExpr (.propAccess client "$primary") [] pl pc) entity) method)
      = some entity := by
    simp [extractModelName, hp, hr]
  have hcontains : strContains
      (TSNode.propAccess
        (TSNode.callExpr (TSNode.propAccess client "$primary") [] pl pc) entity).text
      "$primary()" = true := by
    rw [primary_entity_text]
    exact strContains_middle (client.text ++ ".") "$primary()" ("." ++ entity)
  have hcr : checkReplicaUsage
      (.propAccess
        (.propAccess (.callExpr (.propAccess client "$primary") [] pl pc) entity) method)
      = (true, false) := by
    show replicaLoop _ = (true, false)
    rw [replicaLoop.eq_def, if_pos hcontains]
  by_cases hW : WRITE_METHODS.contains method = true
  · refine ⟨{ type := .write,
              method := method,
              model := entity,
              location := ⟨file, line, column⟩,
              usesReplica := false,
              usesPrimary := true,
              inTransaction := isInTransaction anc }, ?_, rfl, rfl, rfl⟩
    have hW' : method ∈ WRITE_METHODS := by simpa using hW
    simp [classifyOperation, hx, hcr, hW']
  · have hR : READ_METHODS.contains method = true := hmethod.resolve_left hW
    refine ⟨{ type := .read,
              method := method,
              model := entity,
              location := ⟨file, line, column⟩,
              usesReplica := false,
              usesPrimary := true,
              inTransaction := isInTransaction anc }, ?_, rfl, rfl, rfl⟩
    have hWn : method ∉ WRITE_METHODS := by simpa using hW
    have hR' : method ∈ READ_METHODS := by simpa using hR
    simp [classifyOperation, hx, hcr, hWn, hR']

/-! ## Client instance detector and the analyze gate (claim C3) -/

/-- A file containing only the write-then-read function, with no client
declaration anywhere. -/
def fileNoClient : SourceFile := ⟨"a.ts", .other [funcWriteThenRead]⟩

/-- `const prisma = new PrismaClient().$extends(readReplicas('...'))`. -/
def clientDecl : TSNode :=
  .varDecl "prisma"
    (some (.callExpr (.propAccess (.newExpr (.ident "PrismaClient") []) "$extends")
      [.callExpr (.ident "readReplicas") [.stringLit "postgresql"] 1 30] 1 14)) 1

/-- The write-then-read file together with a replica-extended client
declaration. -/
def fileWithClient : SourceFile := ⟨"w.ts", .other [clientDecl, funcWriteThenRead]⟩

/-- Counterexample to claim C3 as stated: on a file set in which zero
client instances are detected, `analyze` returns the empty issue list
even though the per-file pairing algorithm alone reports an issue — the
detector's output does gate the analysis in the zero-instance case. -/
theorem zero_clients_gate_counterexample :
    detectPrismaClients [fileNoClient] = [] ∧
      analyzeIssues [fileNoClient] = [] ∧
      detectIssuesInFile "a.ts" (.other [funcWriteThenRead]) [] =
        [mkIssue (userOp .write "create" "a.ts" 2) (userOp .read "findMany" "a.ts" 3)] := by
  refine ⟨rfl, rfl, ?_⟩
  decide

/-- Claim C3 (amended): the detected instance list never filters any
issue inside per-file detection (`detectIssuesInFile` ignores it
entirely), and whenever at least one client instance is detected the
analysis runs the full per-file pairing on every file; only a run with
zero detected instances short-circuits to an empty issue list. -/
theorem client_detector_advisory_amended :
    (∀ (file : String) (root : TSNode) (i1 i2 : List PrismaClientInstance),
      detectIssuesInFile file root i1 = detectIssuesInFile file root i2) ∧
    (∀ files : List SourceFile, detectPrismaClients files ≠ [] →
      analyzeIssues files = files.flatMap fun f =>
        detectIssuesInFile f.path f.root (detectPrismaClients files)) := by
  constructor
  · intro file root i1 i2
    rfl
  · intro files h
    simp only [analyzeIssues]
    rw [if_neg fun hc => h (List.isEmpty_iff.mp hc)]

/-- Witness for the amended C3 at a file set with a detected client. -/
theorem client_detector_advisory_amended_witness :
    analyzeIssues [fileWithClient] = [fileWithClient].flatMap fun f =>
      detectIssuesInFile f.path f.root (detectPrismaClients [fileWithClient]) :=
  client_detector_advisory_amended.2 [fileWithClient] (by decide)

/-! ## Nested construct enumeration (claim C4) -/


/-- The descendant enumeration of a descendant construct is a sublist of
the enclosing enumeration, with identical ancestor chains: pre-order
enumeration visits a node's descendants contiguously. -/
theorem subWith_sublist :
    ∀ (anc : List TSNode) (f : TSNode) (g : TSNode) (ancG : List TSNode),
      (g, ancG) ∈ TSNode.subWith anc f →
        (TSNode.subWith ancG g).Sublist (TSNode.subWith anc f) := by
  refine TSNode.subWith.induct _
    (fun anc cs => ∀ g ancG, (g, ancG) ∈ TSNode.subListWith anc cs →
      (TSNode.subWith ancG g).Sublist (TSNode.subListWith anc cs))
    ?_ ?_ ?_ ?_ ?_ ?_ ?_ ?_ ?_ ?_ ?_ ?_ ?_ ?_ ?_
  · intro x name g ancG h
    simp [TSNode.subWith] at h
  · intro x s g ancG h
    simp [TSNode.subWith] at h
  · intro anc obj name ih g ancG h
    simp only [TSNode.subWith, List.mem_cons, Prod.mk.injEq] at h ⊢
    rcases h with ⟨rfl, rfl⟩ | h
    · exact List.sublist_cons_self _ _
    · exact (ih g ancG h).cons _
  · intro anc callee args line column ih1 ih2 g ancG h
    simp only [TSNode.subWith, List.cons_append, List.mem_cons, List.mem_append,
      Prod.mk.injEq] at h ⊢
    rcases h with ⟨rfl, rfl⟩ | h | h
    · exact (List.sublist_append_left _ _).cons _
    · exact (ih1 g ancG h).trans ((List.sublist_append_left _ _).cons _)
    · exact (ih2 g ancG h).trans ((List.sublist_append_right _ _).cons _)
  · intro anc callee args ih1 ih2 g ancG h
    simp only [TSNode.subWith, List.cons_append, List.mem_cons, List.mem_append,
      Prod.mk.injEq] at h ⊢
    rcases h with ⟨rfl, rfl⟩ | h | h
    · exact (List.sublist_append_left _ _).cons _
    · exact (ih1 g ancG h).trans ((List.sublist_append_left _ _).cons _)
    · exact (ih2 g ancG h).trans ((List.sublist_append_right _ _).cons _)
  · intro anc name line g ancG h
    simp [TSNode.subWith] at h
  · intro anc name line e ih g ancG h
    simp only [TSNode.subWith, List.mem_cons, Prod.mk.injEq] at h ⊢
    rcases h with ⟨rfl, rfl⟩ | h
    · exact List.sublist_cons_self _ _
    · exact (ih g ancG h).cons _
  · intro anc body ih g ancG h
    simp only [TSNode.subWith] at h ⊢
    exact ih g ancG h
  · intro anc name body ih g ancG h
    simp only [TSNode.subWith] at h ⊢
    exact ih g ancG h
  · intro anc body ih g ancG h
    simp only [TSNode.subWith] at h ⊢
    exact ih g ancG h
  · intro anc name body ih g ancG h
    simp only [TSNode.subWith] at h ⊢
    exact ih g ancG h
  · intro anc e ih g ancG h
    simp only [TSNode.subWith, List.mem_cons, Prod.mk.injEq] at h ⊢
    rcases h with ⟨rfl, rfl⟩ | h
    · exact List.sublist_cons_self _ _
    · exact (ih g ancG h).cons _
  · intro anc children ih g ancG h
    simp only [TSNode.subWith] at h ⊢
    exact ih g ancG h
  · intro x g ancG h
    simp [TSNode.subListWith] at h
  · intro anc c cs ih1 ih2 g ancG h
    simp only [TSNode.subListWith, List.cons_append, List.mem_cons, List.mem_append,
      Prod.mk.injEq] at h ⊢
    rcases h with ⟨rfl, rfl⟩ | h | h
    · exact (List.sublist_append_left _ _).cons _
    · exact (ih1 g ancG h).trans ((List.sublist_append_left _ _).cons _)
    · exact (ih2 g ancG h).trans ((List.sublist_append_right _ _).cons _)

/-- Family of nested constructs: depth `d` arrow functions enclosing the
write-then-read arrow function. -/
def nestFunc : Nat → TSNode
  | 0 => funcWriteThenRead
  | d + 1 => .arrowFunction [nestFunc d]

/-- A file whose only top-level statement is the depth-`d` nest. -/
def nestRoot (d : Nat) : TSNode := .other [nestFunc d]

/-- The single write/read pair issue of the nested family. -/
def nestIssue : Issue :=
  mkIssue (userOp .write "create" "n.ts" 2) (userOp .read "findMany" "n.ts" 3)

theorem nestFunc_notCall (d : Nat) : TSNode.isCallExpr (nestFunc d) = false := by
  cases d <;> rfl

theorem nestFunc_notTx (d : Nat) : isTransactionCall (nestFunc d) = false := by
  cases d <;> rfl

theorem nestFunc_isArrow (d : Nat) : TSNode.isArrowFunction (nestFunc d) = true := by
  cases d <;> rfl

theorem nestFunc_notDecl (d : Nat) : TSNode.isFunctionDecl (nestFunc d) = false := by
  cases d <;> rfl

theorem nestFunc_notExpr (d : Nat) : TSNode.isFunctionExpr (nestFunc d) = false := by
  cases d <;> rfl

theorem nestFunc_notMethod (d : Nat) : TSNode.isMethodDecl (nestFunc d) = false := by
  cases d <;> rfl

theorem nestFunc_ops (d : Nat) : ∀ (anc : List TSNode),
    anc.any isTransactionCall = false →
    functionOperations "n.ts" anc (nestFunc d) =
      [userOp .write "create" "n.ts" 2, userOp .read "findMany" "n.ts" 3] := by
  induction d with
  | zero =>
    intro anc h
    have e : functionOperations "n.ts" anc (nestFunc 0) =
        [{ userOp .write "create" "n.ts" 2 with
            inTransaction :=
              isInTransaction (.awaitExpr (userCall "create" 2) :: nestFunc 0 :: anc) },
         { userOp .read "findMany" "n.ts" 3 with
            inTransaction :=
              isInTransaction (.awaitExpr (userCall "findMany" 3) :: nestFunc 0 :: anc) }] :=
      rfl
    rw [e]
    have h1 : isInTransaction
        (.awaitExpr (userCall "create" 2) :: nestFunc 0 :: anc) = false := by
      simp [isInTransaction, isTransactionCall, nestFunc, funcWriteThenRead, h]
    have h2 : isInTransaction
        (.awaitExpr (userCall "findMany" 3) :: nestFunc 0 :: anc) = false := by
      simp [isInTransaction, isTransactionCall, nestFunc, funcWriteThenRead, h]
    rw [h1, h2]
    rfl
  | succ d ih =>
    intro anc h
    have e : functionCalls anc (nestFunc (d + 1)) =
        functionCalls (nestFunc (d + 1) :: anc) (nestFunc d) := by
      show (TSNode.subWith anc (.arrowFunction [nestFunc d])).filter _ = _
      rw [functionCalls]
      simp only [TSNode.subWith, TSNode.subListWith, List.append_nil, List.filter_cons,
        nestFunc_notCall]
      rfl
    rw [functionOperations, e, ← functionOperations]
    exact ih _ (by simp [nestFunc_notTx, h])

theorem nestFunc_issues (d : Nat) (anc : List TSNode)
    (h : anc.any isTransactionCall = false) :
    detectIssuesInFunction "n.ts" anc (nestFunc d) = [nestIssue] := by
  rw [detectIssuesInFunction, nestFunc_ops d anc h]
  rfl

/-- The arrow-function descendants of `nestFunc d`, with their chains. -/
def arrowChain : Nat → List TSNode → List (TSNode × List TSNode)
  | 0, _ => []
  | d + 1, anc => (nestFunc d, nestFunc (d + 1) :: anc) :: arrowChain d (nestFunc (d + 1) :: anc)

theorem nest_filter_arrow (d : Nat) : ∀ anc : List TSNode,
    (TSNode.subWith anc (nestFunc d)).filter (fun p => p.1.isArrowFunction) =
      arrowChain d anc := by
  induction d with
  | zero => intro anc; rfl
  | succ d ih =>
    intro anc
    show (TSNode.subWith anc (.arrowFunction [nestFunc d])).filter _ = _
    simp only [TSNode.subWith, TSNode.subListWith, List.append_nil, List.filter_cons,
      nestFunc_isArrow]
    rw [ih]
    rfl

theorem nest_filter_decl (d : Nat) : ∀ anc : List TSNode,
    (TSNode.subWith anc (nestFunc d)).filter (fun p => p.1.isFunctionDecl) = [] := by
  induction d with
  | zero => intro anc; rfl
  | succ d ih =>
    intro anc
    show (TSNode.subWith anc (.arrowFunction [nestFunc d])).filter _ = _
    simp only [TSNode.subWith, TSNode.subListWith, List.append_nil, List.filter_cons,
      nestFunc_notDecl]
    exact ih _

theorem nest_filter_expr (d : Nat) : ∀ anc : List TSNode,
    (TSNode.subWith anc (nestFunc d)).filter (fun p => p.1.isFunctionExpr) = [] := by
  induction d with
  | zero => intro anc; rfl
  | succ d ih =>
    intro anc
    show (TSNode.subWith anc (.arrowFunction [nestFunc d])).filter _ = _
    simp only [TSNode.subWith, TSNode.subListWith, List.append_nil, List.filter_cons,
      nestFunc_notExpr]
    exact ih _

theorem nest_filter_method (d : Nat) : ∀ anc : List TSNode,
    (TSNode.subWith anc (nestFunc d)).filter (fun p => p.1.isMethodDecl) = [] := by
  induction d with
  | zero => intro anc; rfl
  | succ d ih =>
    intro anc
    show (TSNode.subWith anc (.arrowFunction [nestFunc d])).filter _ = _
    simp only [TSNode.subWith, TSNode.subListWith, List.append_nil, List.filter_cons,
      nestFunc_notMethod]
    exact ih _

theorem arrowChain_issues (d : Nat) : ∀ anc : List TSNode,
    anc.any isTransactionCall = false →
    (arrowChain d anc).flatMap (fun p => detectIssuesInFunction "n.ts" p.2 p.1) =
      List.replicate d nestIssue := by
  induction d with
  | zero => intro anc h; rfl
  | succ d ih =>
    intro anc h
    simp only [arrowChain, List.flatMap_cons]
    rw [nestFunc_issues d _ (by simp [nestFunc_notTx, h]),
      ih _ (by simp [nestFunc_notTx, h])]
    rfl

/-- Claim C4: a write/read pair inside a construct nested in enclosing
function-like constructs is emitted once for the inner construct and once
more for every enclosing construct.  First part (general): any issue of a
nested construct is re-emitted by every enclosing enumerated construct
and appears in the file's issue list.  Second part (exact count): in the
depth-`d` nested-arrow family the file's issue list is exactly `d + 1`
copies of the single pair issue — once per enclosing scope level plus
once for its own scope. -/
theorem nested_construct_duplication :
    (∀ (file : String) (root : TSNode) (insts : List PrismaClientInstance)
        (f : TSNode) (ancF : List TSNode) (g : TSNode) (ancG : List TSNode) (iss : Issue),
      (f, ancF) ∈ fileFunctions root → (g, ancG) ∈ TSNode.subWith ancF f →
      iss ∈ detectIssuesInFunction file ancG g →
      iss ∈ detectIssuesInFunction file ancF f ∧ iss ∈ detectIssuesInFile file root insts) ∧
    (∀ (d : Nat) (insts : List PrismaClientInstance),
      detectIssuesInFile "n.ts" (nestRoot d) insts = List.replicate (d + 1) nestIssue) := by
  constructor
  · intro file root insts f ancF g ancG iss hf hg hiss
    have hsub := subWith_sublist ancF f g ancG hg
    have hops : (functionOperations file ancG g).Sublist (functionOperations file ancF f) :=
      (hsub.filter _).filterMap _
    obtain ⟨w, r, h1, h2, h3, h4⟩ := mem_pairIssues_iff.mp hiss
    have hff : iss ∈ detectIssuesInFunction file ancF f :=
      mem_pairIssues_iff.mpr ⟨w, r, h1, h2, h3, h4.trans hops⟩
    exact ⟨hff, List.mem_flatMap.mpr ⟨(f, ancF), hf, hff⟩⟩
  · intro d insts
    have hds : TSNode.subWith [] (nestRoot d) =
        (nestFunc d, [nestRoot d]) :: TSNode.subWith [nestRoot d] (nestFunc d) := by
      show TSNode.subWith [] (.other [nestFunc d]) = _
      simp only [TSNode.subWith, TSNode.subListWith, List.append_nil]
      rfl
    rw [detectIssuesInFile, fileFunctions]
    simp only [hds, List.filter_cons, nestFunc_notDecl, nestFunc_isArrow, nestFunc_notExpr,
      nestFunc_notMethod, nest_filter_decl, nest_filter_arrow, nest_filter_expr,
      nest_filter_method, Bool.false_eq_true, if_false, if_true, List.nil_append,
      List.append_nil, List.flatMap_cons]
    rw [nestFunc_issues d [nestRoot d] (by simp [nestRoot, isTransactionCall]),
      arrowChain_issues d [nestRoot d] (by simp [nestRoot, isTransactionCall])]
    rfl

/-- Witness for C4 at nesting depth 1. -/
theorem nested_construct_duplication_witness :
    nestIssue ∈ detectIssuesInFunction "n.ts" [nestRoot 1] (nestFunc 1) ∧
      nestIssue ∈ detectIssuesInFile "n.ts" (nestRoot 1) [] :=
  nested_construct_duplication.1 "n.ts" (nestRoot 1) []
    (nestFunc 1) [nestRoot 1] (nestFunc 0) [nestFunc 1, nestRoot 1] nestIssue
    (List.Mem.head _) (List.Mem.head _) (by decide)

/-- Witness for C6: `prisma.$primary().user.findMany()` classifies with
entity `user`, `usesPrimary = true`, `usesReplica = false`. -/
theorem primary_then_entity_classifies_witness :
    ∃ op, classifyOperation "b.ts"
        (.callExpr
          (.propAccess
            (.propAccess (.callExpr (.propAccess (.ident "prisma") "$primary") [] 5 9) "user")
            "findMany")
          [] 5 3) [] = some op ∧
      op.model = "user" ∧ op.usesPrimary = true ∧ op.usesReplica = false :=
  primary_then_entity_classifies "b.ts" (.ident "prisma") "user" "findMany" [] 5 9 5 3 []
    (Or.inr (by decide)) (by decide) (by decide)
